import Mathlib

/-!
Verification of `get_last_tag.py` (repository GetRepositoryLatestVersion).

The file embeds, as executable Lean functions:

* the parts of the third-party `semantic_version` library (python-semanticversion)
  that the script calls: strict parsing (`Version(s)`), lenient parsing
  (`Version.coerce(s)`), and the precedence comparison (`__gt__` / `__eq__`,
  which compare the `precedence_key` tuple and ignore build metadata);
* `_find_latest_tag`, including its Python exception behaviour
  (`SystemExit`, and the `IndexError` / `TypeError` slips reachable on
  some inputs), modelled with `Except`;
* `_create_regex_from_current_tag`, modelled as the pattern *string* the
  function compiles, together with a small matcher giving the semantics of
  the Python `re` constructs that occur in the generated patterns.

Modelling conventions: Python `str` is Lean `String` (a list of characters);
character classes (`str.isdigit`, `\d`, `[0-9a-zA-Z.-]`) are modelled with
their ASCII meaning, which is what registry tags use; machine integers do not
occur (Python ints are unbounded, hence `Nat`).
-/

namespace GetLastTag

/-- A digit string "\d+" group has a forbidden leading zero iff it starts with
`'0'` and is not exactly `"0"` (python-semanticversion `_has_leading_zero`). -/
def leadingZero (ds : List Char) : Bool :=
  match ds with
  | '0' :: _ :: _ => true
  | _ => false

/-- Decimal value of a digit string (Python `int(...)` on a `\d+` group). -/
def digitsToNat (ds : List Char) : Nat :=
  ds.foldl (fun n c => 10 * n + (c.toNat - '0'.toNat)) 0

/-- Characters of the regex class `[0-9a-zA-Z.-]` used for the prerelease and
build groups of python-semanticversion's `version_re`. -/
def isIdentChar (c : Char) : Bool :=
  c.isAlphanum || c = '.' || c = '-'

/-- Python `s.isdigit()` for ASCII strings: non-empty and all digits. -/
def isNumericStr (cs : List Char) : Bool :=
  !cs.isEmpty && cs.all Char.isDigit

/-- A prerelease identifier is valid when non-empty and, if numeric, without a
leading zero (python-semanticversion `_validate_identifiers` with
`allow_leading_zeroes=False`). -/
def validPreIdent (cs : List Char) : Bool :=
  !cs.isEmpty && !(cs.headD ' ' = '0' && isNumericStr cs && cs ≠ ['0'])

/-- A build identifier only has to be non-empty (`allow_leading_zeroes=True`). -/
def validBuildIdent (cs : List Char) : Bool :=
  !cs.isEmpty

/-- Python `s.split('.')`, keeping empty pieces. -/
def splitOnDot : List Char → List (List Char)
  | [] => [[]]
  | c :: cs =>
    if c = '.' then [] :: splitOnDot cs
    else
      match splitOnDot cs with
      | [] => [[c]]
      | p :: ps => (c :: p) :: ps

/-- Split at the first occurrence of `x` (Python `s.split(x, 1)`): returns the
part before it and, when `x` occurs, the part after it. -/
def splitAtFirst (x : Char) : List Char → List Char × Option (List Char)
  | [] => ([], none)
  | c :: cs =>
    if c = x then ([], some cs)
    else
      match splitAtFirst x cs with
      | (p, q) => (c :: p, q)

/-- Model of `semantic_version.Version` (always `partial=False` here): major, minor and patch are
always present; prerelease and build are (possibly empty) identifier lists. -/
structure Version where
  major : Nat
  minor : Nat
  patch : Nat
  prerelease : List (List Char)
  build : List (List Char)
deriving DecidableEq, Repr

/-- Match of the tail of `version_re` after `major.minor.patch`:
`(?:-([0-9a-zA-Z.-]*))?(?:\+([0-9a-zA-Z.-]*))?$`.  Returns the raw prerelease
and build groups (`none` = group absent).  The classes exclude `'+'`, so the
prerelease group reaches exactly to the first `'+'` and the build group must be
free of further `'+'` characters. -/
def parseSuffix : List Char → Option (Option (List Char) × Option (List Char))
  | [] => some (none, none)
  | c :: r =>
    if c = '-' then
      match splitAtFirst '+' r with
      | (p, none) =>
        if p.all isIdentChar then some (some p, none) else none
      | (p, some b) =>
        if p.all isIdentChar && b.all isIdentChar then some (some p, some b) else none
    else if c = '+' then
      if r.all isIdentChar then some (none, some r) else none
    else none

/-- Strict parse, `semantic_version.Version(s)`: the anchored regex
`^(\d+)\.(\d+)\.(\d+)(?:-([0-9a-zA-Z.-]*))?(?:\+([0-9a-zA-Z.-]*))?$`, the
leading-zero checks on the three numeric components, and identifier
validation; `none` models a raised `ValueError`. -/
def strictParse (cs : List Char) : Option Version :=
  let maj := cs.takeWhile Char.isDigit
  let r1 := cs.dropWhile Char.isDigit
  if maj.isEmpty then none else
  match r1 with
  | '.' :: r1' =>
    let mino := r1'.takeWhile Char.isDigit
    let r2 := r1'.dropWhile Char.isDigit
    if mino.isEmpty then none else
    match r2 with
    | '.' :: r2' =>
      let pat := r2'.takeWhile Char.isDigit
      let r3 := r2'.dropWhile Char.isDigit
      if pat.isEmpty then none else
      match parseSuffix r3 with
      | none => none
      | some (preG, buildG) =>
        if leadingZero maj || leadingZero mino || leadingZero pat then none else
        let preIds : Option (List (List Char)) :=
          match preG with
          | none => some []
          | some p =>
            if p.isEmpty then some []
            else
              let ids := splitOnDot p
              if ids.all validPreIdent then some ids else none
        let buildIds : Option (List (List Char)) :=
          match buildG with
          | none => some []
          | some b =>
            if b.isEmpty then some []
            else
              let ids := splitOnDot b
              if ids.all validBuildIdent then some ids else none
        match preIds, buildIds with
        | some pre, some bld =>
          some ⟨digitsToNat maj, digitsToNat mino, digitsToNat pat, pre, bld⟩
        | _, _ => none
    | _ => none
  | _ => none

/-- Match of `Version.coerce`'s `base_re = ^\d+(?:\.\d+(?:\.\d+)?)?`: the
numeric components matched (one to three) and the unmatched remainder. -/
def baseMatch (cs : List Char) : Option (List (List Char) × List Char) :=
  let d1 := cs.takeWhile Char.isDigit
  let r1 := cs.dropWhile Char.isDigit
  if d1.isEmpty then none else
  match r1 with
  | '.' :: r1' =>
    let d2 := r1'.takeWhile Char.isDigit
    if d2.isEmpty then some ([d1], r1) else
    let r2 := r1'.dropWhile Char.isDigit
    match r2 with
    | '.' :: r2' =>
      let d3 := r2'.takeWhile Char.isDigit
      if d3.isEmpty then some ([d1, d2], r2)
      else some ([d1, d2, d3], r2'.dropWhile Char.isDigit)
    | _ => some ([d1, d2], r2)
  | _ => some ([d1], r1)

/-- Python `part.lstrip('0') or '0'` from `Version.coerce`. -/
def stripZeros (ds : List Char) : List Char :=
  let t := ds.dropWhile (· = '0')
  if t.isEmpty then ['0'] else t

/-- Join components with `'.'` (Python `'.'.join(...)`). -/
def joinDots : List (List Char) → List Char
  | [] => []
  | [p] => p
  | p :: ps => p ++ '.' :: joinDots ps

/-- Cleanup map of `Version.coerce`: `re.sub(r'[^a-zA-Z0-9+.-]', '-', rest)`. -/
def cleanChar (c : Char) : Char :=
  if c.isAlphanum || c = '+' || c = '.' || c = '-' then c else '-'

/-- Lenient parse, `semantic_version.Version.coerce(s)` with `partial=False`:
take the leading numeric components, pad to `X.Y.Z`, strip leading zeros,
and turn the remainder into prerelease/build parts; the rebuilt string is then
parsed strictly (a `ValueError` raised there propagates, hence `Option.bind`-like
composition into `strictParse`). -/
def coerce (cs : List Char) : Option Version :=
  match baseMatch cs with
  | none => none
  | some (parts, rest) =>
    let parts := parts ++ List.replicate (3 - parts.length) ['0']
    let parts := parts.map stripZeros
    let core := joinDots parts
    match rest with
    | [] => strictParse core
    | _ =>
      let r := rest.map cleanChar
      let pb : List Char × List Char :=
        match r with
        | '+' :: b => ([], b)
        | '.' :: b => ([], b)
        | '-' :: r' =>
          (match splitAtFirst '+' r' with
           | (p, none) => (p, [])
           | (p, some b) => (p, b))
        | _ =>
          (match splitAtFirst '+' r with
           | (p, none) => (p, [])
           | (p, some b) => (p, b))
      let pre := pb.1
      let bld := pb.2.map (fun c => if c = '+' then '.' else c)
      let full := core ++ (if pre.isEmpty then [] else '-' :: pre)
                       ++ (if bld.isEmpty then [] else '+' :: bld)
      strictParse full

/-! ### Version precedence

python-semanticversion compares versions through `precedence_key`, the tuple
`(major, minor, patch, prerelease_key)` ordered by Python tuple comparison.
Build metadata does not participate.  `prerelease_key` is `(MaxIdentifier(),)`
for an empty prerelease, otherwise one `NumericIdentifier` (compared by value)
or `AlphaIdentifier` (compared as ASCII bytes) per identifier, with
`Numeric < Alpha < Max`.  We embed the identifiers order-faithfully into
`Nat ×ₗ Nat ×ₗ List Char` and the whole key into nested lexicographic
products, whose Mathlib order coincides with Python tuple/bytes comparison. -/

abbrev IdentKey := Nat ×ₗ Nat ×ₗ List Char

/-- Key of one prerelease identifier: `NumericIdentifier(int(part))` when
`part.isdigit()`, otherwise `AlphaIdentifier(part)`. -/
def identKey (id : List Char) : IdentKey :=
  if isNumericStr id then toLex (0, toLex (digitsToNat id, ([] : List Char)))
  else toLex (1, toLex (0, id))

/-- Key of `MaxIdentifier()`, greater than every numeric or alpha identifier. -/
def maxIdentKey : IdentKey := toLex (2, toLex (0, ([] : List Char)))

abbrev VKey := Nat ×ₗ Nat ×ₗ Nat ×ₗ List IdentKey

/-- Prerelease component of the precedence key: `(MaxIdentifier(),)` when the
prerelease is empty (a final release outranks every prerelease), otherwise the
identifier keys in order. -/
def preKeyList (v : Version) : List IdentKey :=
  match v.prerelease with
  | [] => [maxIdentKey]
  | l => l.map identKey

/-- Embedding of `Version.precedence_key` (build metadata ignored). -/
def precedence_key (v : Version) : VKey :=
  toLex (v.major, toLex (v.minor, toLex (v.patch, preKeyList v)))

/-- Python `a > b` on two `Version` objects. -/
def versionGt (a b : Version) : Bool :=
  decide (precedence_key b < precedence_key a)

/-- Python `a == b` on two `Version` objects: `Version.__eq__` compares all
five fields — major, minor, patch, prerelease *and build metadata* — unlike
the precedence order `<`/`>`, which ignores build. -/
def versionEq (a b : Version) : Bool :=
  decide (a = b)

/-- Python `x == y` where either side may be `None` (`None == None` is `True`,
`None` never equals a `Version`). -/
def optVersionEq : Option Version → Option Version → Bool
  | some a, some b => versionEq a b
  | none, none => true
  | _, _ => false

/-! ### `_find_latest_tag` -/

/-- Python exceptions that can escape the modelled code. -/
inductive PyExc
  | indexError
  | typeError
  | systemExit (msg : String)
deriving DecidableEq, Repr

/-- The message of the `SystemExit` raised when no tag improved the baseline. -/
def exitMsgNoTags : String :=
  "Latest tag not retrieved, obtained tags cannot be compared"

/-- The inner helper `convert_to_sem_ver` of `_find_latest_tag`:
`_tag[0]` raises `IndexError` on the empty string; otherwise a leading `'v'`
is stripped, strict parsing is attempted, then coercion; both `ValueError`s
are caught and produce `None` (after a logged warning). -/
def convert_to_sem_ver (tag : String) : Except PyExc (Option Version) :=
  match tag.data with
  | [] => .error .indexError
  | c :: cs =>
    let t : List Char := if c = 'v' then cs else c :: cs
    match strictParse t with
    | some v => .ok (some v)
    | none => .ok (coerce t)

/-- One iteration of the `for tag in tags` loop of `_find_latest_tag`: an
unconvertible tag is skipped (`continue`); otherwise `tag_ver > latest_version`
is evaluated, which raises `TypeError` when `latest_version` is `None`, and the
running maximum is replaced only on strict improvement. -/
def step (acc : String × Option Version) (tag : String) :
    Except PyExc (String × Option Version) :=
  match convert_to_sem_ver tag with
  | .error e => .error e
  | .ok none => .ok acc
  | .ok (some v) =>
    match acc.2 with
    | none => .error .typeError
    | some lv => if versionGt v lv then .ok (tag, some v) else .ok acc

/-- Python `current_version if current_version else '0.0.0'` (`None` and the
empty string are falsy). -/
def normalized_current : Option String → String
  | none => "0.0.0"
  | some s => if s = "" then "0.0.0" else s

/-- The function `_find_latest_tag(tags, current_version)`.  The running maximum starts at
the (possibly defaulted) current version together with its conversion, the
loop runs left to right, and at the end a maximum equal to `Version('0.0.0')`
raises `SystemExit`; otherwise the winning tag string is returned as is. -/
def find_latest_tag (tags : List String) (current_version : Option String) :
    Except PyExc String :=
  let cv := normalized_current current_version
  match convert_to_sem_ver cv with
  | .error e => .error e
  | .ok cvv =>
    match tags.foldlM step (cv, cvv) with
    | .error e => .error e
    | .ok acc =>
      match convert_to_sem_ver "0.0.0" with
      | .error e => .error e
      | .ok baseline =>
        if optVersionEq acc.2 baseline then .error (.systemExit exitMsgNoTags)
        else .ok acc.1

/-! ### `_create_regex_from_current_tag` -/

/-- The default pattern used when no current tag is given (the canonical
semantic-versioning regex of the source, verbatim). -/
def default_semver_regex : String :=
  "^[v]\x7b0,1\x7d(?P<major>0|[1-9]\\d*)\\.(?P<minor>0|[1-9]\\d*)\\.(?P<patch>0|[1-9]\\d*)(?:-(?P<prerelease>(?:0|[1-9]\\d*|\\d*[a-zA-Z-][0-9a-zA-Z-]*)(?:\\.(?:0|[1-9]\\d*|\\d*[a-zA-Z-][0-9a-zA-Z-]*))*))?(?:\\+(?P<buildmetadata>[0-9a-zA-Z-]+(?:\\.[0-9a-zA-Z-]+)*))?$"

/-- The capturing group the builder appends for a digit, `(0|[1-9]\d*)`. -/
def groupPattern : List Char :=
  ['(', '0', '|', '[', '1', '-', '9', ']', '\\', 'd', '*', ')']

/-- The `for char in current_tag` loop of `_create_regex_from_current_tag`:
a digit appends `groupPattern` unless the pattern built so far already ends in
`')'`; `'.'` appends `[.]`; any other character is appended verbatim. -/
def buildLoop : List Char → List Char → List Char
  | acc, [] => acc
  | acc, c :: cs =>
    if c.isDigit then
      if acc.getLastD ' ' ≠ ')' then buildLoop (acc ++ groupPattern) cs
      else buildLoop acc cs
    else if c = '.' then buildLoop (acc ++ ('[' :: '.' :: ']' :: [])) cs
    else buildLoop (acc ++ [c]) cs

/-- The function `_create_regex_from_current_tag`, modelled as the pattern string passed to
`re.compile` (Python falsiness: `None` and `""` select the default pattern). -/
def _create_regex_from_current_tag (current_tag : Option String) : String :=
  match current_tag with
  | none => default_semver_regex
  | some t =>
    if t = "" then default_semver_regex
    else ⟨buildLoop ['^'] t.data ++ ['$']⟩

/-- The pattern as the specification describes it, for comparison with the
source builder: each digit becomes the capturing group, with *consecutive*
digits collapsed into one group (tracked by the flag `prevDigit`), each
literal `'.'` becomes the dot-matching class `[.]`, every other character is
copied verbatim. -/
def claimedWalk : Bool → List Char → List Char
  | _, [] => []
  | prevDigit, c :: cs =>
    if c.isDigit then
      (if prevDigit then [] else groupPattern) ++ claimedWalk true cs
    else if c = '.' then '[' :: '.' :: ']' :: claimedWalk false cs
    else c :: claimedWalk false cs

/-- The anchored pattern the specification describes for a non-empty example
tag. -/
def claimed_regex_pattern (t : String) : String :=
  ⟨'^' :: (claimedWalk false t.data ++ ['$'])⟩

/-! ### Matching semantics of the generated patterns

The patterns the builder produces from alphanumeric/`.`/`-` example tags use
only three regex constructs: literal characters, the class `[.]`, and the
group `(0|[1-9]\d*)`.  `matchPat` gives Python `re.match`'s (backtracking)
semantics for exactly those constructs, with the trailing `$` anchoring the
end.  The fuel argument only serves termination; every recursive call consumes
pattern characters, so `length + 1` fuel is always enough. -/

def groupTail : List Char :=
  ['0', '|', '[', '1', '-', '9', ']', '\\', 'd', '*', ')']

def matchPat : Nat → List Char → List Char → Bool
  | 0, _, _ => false
  | fuel + 1, pat, s =>
    match pat, s with
    | ['$'], [] => true
    | '(' :: pr, s =>
      groupTail.isPrefixOf pr &&
        (let cont := pr.drop groupTail.length
         match s with
         | [] => false
         | c :: s' =>
           (c = '0' && matchPat fuel cont s') ||
           (('1' ≤ c && c ≤ '9') &&
             (List.range (s'.length + 1)).any
               (fun k => (s'.take k).all Char.isDigit && matchPat fuel cont (s'.drop k))))
    | '[' :: '.' :: ']' :: pr, c :: s => c = '.' && matchPat fuel pr s
    | c :: pr, d :: s => c = d && matchPat fuel pr s
    | _, _ => false

/-- Python `re.match` of an anchored generated pattern against a whole string. -/
def re_match (pattern s : String) : Bool :=
  match pattern.data with
  | '^' :: body => matchPat (body.length + 1) body s.data
  | _ => false

/-- Two sequential invocations of the selector on the same arguments, as a
pair: the Python function keeps no state between calls, so each component is
an independent run. -/
def call_selector_twice (tags : List String) (current_version : Option String) :
    Except PyExc String × Except PyExc String :=
  (find_latest_tag tags current_version, find_latest_tag tags current_version)

/-! ## Helper lemmas -/

theorem getLast_getD_append (l m : List Char) (a d : Char) :
    (l ++ a :: m).getLast?.getD d = (a :: m).getLast?.getD d := by
  rw [List.getLast?_append_cons]

theorem buildLoop_claimedWalk (cs : List Char) :
    ∀ (acc : List Char) (b : Bool), (b = true ↔ acc.getLast?.getD ' ' = ')') → ')' ∉ cs →
      buildLoop acc cs = acc ++ claimedWalk b cs := by
  induction cs with
  | nil => intro acc b _ _; simp [buildLoop, claimedWalk]
  | cons c cs ih =>
    intro acc b hb hcs
    have hc : c ≠ ')' := fun h => hcs (by rw [h]; exact List.mem_cons_self _ _)
    have hcs' : ')' ∉ cs := fun h => hcs (List.mem_cons_of_mem c h)
    by_cases hd : c.isDigit
    · cases b with
      | true =>
        have hlast : acc.getLast?.getD ' ' = ')' := hb.mp rfl
        have h1 : buildLoop acc (c :: cs) = buildLoop acc cs := by
          simp [buildLoop, hd, hlast]
        have h2 : acc ++ claimedWalk true (c :: cs) = acc ++ claimedWalk true cs := by
          simp [claimedWalk, hd]
        rw [h1, h2]
        exact ih acc true hb hcs'
      | false =>
        have hlast : ¬acc.getLast?.getD ' ' = ')' := fun h => by simpa using hb.mpr h
        have h1 : buildLoop acc (c :: cs) = buildLoop (acc ++ groupPattern) cs := by
          simp [buildLoop, hd, hlast]
        have h2 : acc ++ claimedWalk false (c :: cs)
            = (acc ++ groupPattern) ++ claimedWalk true cs := by
          simp [claimedWalk, hd]
        rw [h1, h2]
        refine ih (acc ++ groupPattern) true ?_ hcs'
        refine ⟨fun _ => ?_, fun _ => rfl⟩
        exact getLast_getD_append acc ['0', '|', '[', '1', '-', '9', ']', '\\', 'd', '*', ')'] '(' ' '
    · by_cases hdot : c = '.'
      · subst hdot
        have h1 : buildLoop acc ('.' :: cs) = buildLoop (acc ++ ['[', '.', ']']) cs := by
          simp [buildLoop, hd]
        have h2 : acc ++ claimedWalk b ('.' :: cs)
            = (acc ++ ['[', '.', ']']) ++ claimedWalk false cs := by
          simp [claimedWalk, hd]
        rw [h1, h2]
        refine ih (acc ++ ['[', '.', ']']) false ?_ hcs'
        refine ⟨(fun h => nomatch h), fun h => ?_⟩
        have hg : (acc ++ ['[', '.', ']']).getLast?.getD ' ' = ']' :=
          getLast_getD_append acc ['.', ']'] '[' ' '
        rw [hg] at h
        exact absurd h (by decide)
      · have h1 : buildLoop acc (c :: cs) = buildLoop (acc ++ [c]) cs := by
          simp [buildLoop, hd, hdot]
        have h2 : acc ++ claimedWalk b (c :: cs) = (acc ++ [c]) ++ claimedWalk false cs := by
          simp [claimedWalk, hd, hdot]
        rw [h1, h2]
        refine ih (acc ++ [c]) false ?_ hcs'
        refine ⟨(fun h => nomatch h), fun h => ?_⟩
        have hg : (acc ++ [c]).getLast?.getD ' ' = c := getLast_getD_append acc [] c ' '
        rw [hg] at h
        exact absurd h hc

/-! ## Claim C2 -/

/-- C2, counterexample: for the example tag `"a)1"` the builder emits `^a)$`
(the digit `'1'` is dropped because the pattern built so far ends in the
literal `')'` copied from the tag), while the claimed walk emits
`^a)(0|[1-9]\d*)$`. -/
theorem regex_builder_claim_counterexample :
    _create_regex_from_current_tag (some "a)1") ≠ claimed_regex_pattern "a)1" := by
  decide

/-- C2, amended: for every non-empty example tag that contains no `')'`
character, the pattern built by `_create_regex_from_current_tag` is exactly
the claimed walk: each digit becomes the capturing group `(0|[1-9]\d*)` with
consecutive digits collapsed into one group, each literal `'.'` becomes the
dot-matching class `[.]`, every other character is copied verbatim, and the
pattern is anchored with `^` and `$`. -/
theorem regex_builder_shape_no_rparen (t : String) (h1 : t ≠ "")
    (h2 : ')' ∉ t.data) :
    _create_regex_from_current_tag (some t) = claimed_regex_pattern t := by
  show (if t = "" then default_semver_regex
        else String.mk (buildLoop ['^'] t.data ++ ['$'])) = claimed_regex_pattern t
  rw [if_neg h1]
  have h := buildLoop_claimedWalk t.data ['^'] false
    ⟨(fun h => nomatch h), fun h => absurd h (by decide)⟩ h2
  rw [h]
  rfl

/-- Witness for the amended C2 theorem at the example tag `"v1.2.3"`. -/
theorem regex_builder_shape_no_rparen_witness :
    _create_regex_from_current_tag (some "v1.2.3") = claimed_regex_pattern "v1.2.3" :=
  regex_builder_shape_no_rparen "v1.2.3" (by decide) (by decide)

/-! ## Claims C3, C4, C8, C9, C10 -/

/-- The version `0.0.0`, the comparison baseline. -/
def v000 : Version := ⟨0, 0, 0, [], []⟩

/-- C3 (code bug): with a supplied current version that parses as no semantic
version (here `"foo"`), `_find_latest_tag` does not fall back to the `0.0.0`
baseline; `latest_version` stays `None` and the comparison
`tag_ver > latest_version` against the first parseable tag raises an uncaught
`TypeError` instead of selecting that tag. -/
theorem unparsable_current_raises_typeError :
    find_latest_tag ["1.0.0"] (some "foo") = .error .typeError := by
  rfl

/-- C4 (code bug): an empty tag string cannot be parsed as a version, yet it is
not skipped with a warning: `convert_to_sem_ver` evaluates `_tag[0]` before any
parse attempt and raises an uncaught `IndexError`, aborting the whole scan
(the later parseable tag `"2.0.0"` is never reached). -/
theorem empty_tag_raises_indexError :
    find_latest_tag ["", "2.0.0"] (some "1.2.3") = .error .indexError := by
  rfl

/-- C8: on the tag tuple `("v1.2.3", "v1.3.0", "1.2.9")` with no current
version the selector returns `"v1.3.0"`. -/
theorem concrete_selection_example :
    find_latest_tag ["v1.2.3", "v1.3.0", "1.2.9"] none = .ok "v1.3.0" := by
  rfl

/-- C9: the pattern built from the example tag `"v1.2.3-beta"` matches
`"v2.5.9-beta"` and does not match `"1.2.3"` (missing leading `v`). -/
theorem regex_example_matching :
    re_match (_create_regex_from_current_tag (some "v1.2.3-beta")) "v2.5.9-beta" = true ∧
    re_match (_create_regex_from_current_tag (some "v1.2.3-beta")) "1.2.3" = false := by
  exact ⟨rfl, rfl⟩

/-- C10: the selector is a deterministic function of its arguments; two
sequential invocations with the same tag tuple and current version yield the
same result.  The embedding is a pure function of exactly the inputs the
Python function reads (it consults no state besides its arguments), so the
two components of `call_selector_twice` are equal definitionally. -/
theorem selector_deterministic (tags : List String) (current_version : Option String) :
    (call_selector_twice tags current_version).1
      = (call_selector_twice tags current_version).2 := by
  rfl

/-! ## Claim C6 -/

theorem identKey_lt_max (id : List Char) : identKey id < maxIdentKey := by
  unfold identKey maxIdentKey
  by_cases h : isNumericStr id
  · rw [if_pos h, Prod.Lex.lt_iff]
    exact Or.inl (by norm_num)
  · rw [if_neg h, Prod.Lex.lt_iff]
    exact Or.inl (by norm_num)

theorem preKeyList_lt_of_prerelease (a b : Version) (ha : a.prerelease = [])
    (hb : b.prerelease ≠ []) : preKeyList b < preKeyList a := by
  unfold preKeyList
  rw [ha]
  cases hbp : b.prerelease with
  | nil => exact absurd hbp hb
  | cons h t =>
    show List.Lex (· < ·) (identKey h :: t.map identKey) [maxIdentKey]
    exact List.Lex.rel (identKey_lt_max h)

theorem precKey_lt_intro (a b : Version)
    (h : b.major < a.major ∨ (b.major = a.major ∧ (b.minor < a.minor ∨
      (b.minor = a.minor ∧ (b.patch < a.patch ∨
        (b.patch = a.patch ∧ preKeyList b < preKeyList a)))))) :
    precedence_key b < precedence_key a := by
  unfold precedence_key
  rw [Prod.Lex.lt_iff]
  rcases h with h | ⟨e1, h⟩
  · exact Or.inl h
  · refine Or.inr ⟨e1, ?_⟩
    rw [Prod.Lex.lt_iff]
    rcases h with h | ⟨e2, h⟩
    · exact Or.inl h
    · refine Or.inr ⟨e2, ?_⟩
      rw [Prod.Lex.lt_iff]
      rcases h with h | ⟨e3, h⟩
      · exact Or.inl h
      · exact Or.inr ⟨e3, h⟩

/-- C6: the comparison `_find_latest_tag` ranks candidates with (the Python
`>` on versions, embedded as `versionGt`) puts, for equal
(major, minor, patch), a version without prerelease above one with a
prerelease; and whenever the (major, minor, patch) triples differ, the
lexicographically greater triple wins regardless of prerelease content. -/
theorem version_ranking_rules :
    (∀ a b : Version, a.major = b.major → a.minor = b.minor → a.patch = b.patch →
       a.prerelease = [] → b.prerelease ≠ [] → versionGt a b = true)
    ∧ (∀ a b : Version,
       (b.major < a.major ∨ (b.major = a.major ∧ (b.minor < a.minor ∨
         (b.minor = a.minor ∧ b.patch < a.patch)))) → versionGt a b = true) := by
  constructor
  · intro a b h1 h2 h3 ha hb
    unfold versionGt
    rw [decide_eq_true_eq]
    exact precKey_lt_intro a b (Or.inr ⟨h1.symm, Or.inr ⟨h2.symm,
      Or.inr ⟨h3.symm, preKeyList_lt_of_prerelease a b ha hb⟩⟩⟩)
  · intro a b h
    unfold versionGt
    rw [decide_eq_true_eq]
    apply precKey_lt_intro
    rcases h with h | ⟨e1, h⟩
    · exact Or.inl h
    · rcases h with h | ⟨e2, h⟩
      · exact Or.inr ⟨e1, Or.inl h⟩
      · exact Or.inr ⟨e1, Or.inr ⟨e2, Or.inl h⟩⟩

/-- Witness for C6: `1.2.3` outranks `1.2.3-rc`, and `2.0.0-a` outranks
`1.9.9` despite its prerelease. -/
theorem version_ranking_rules_witness :
    versionGt ⟨1, 2, 3, [], []⟩ ⟨1, 2, 3, [['r', 'c']], []⟩ = true ∧
    versionGt ⟨2, 0, 0, [['a']], []⟩ ⟨1, 9, 9, [], []⟩ = true :=
  ⟨version_ranking_rules.1 _ _ rfl rfl rfl rfl (by decide),
   version_ranking_rules.2 _ _ (Or.inl (by norm_num))⟩

/-! ## Fold invariants and claims C1, C5, C7 -/

theorem step_of_convert_error {t : String} {e : PyExc}
    (h : convert_to_sem_ver t = .error e) (acc : String × Option Version) :
    step acc t = .error e := by
  simp [step, h]

theorem step_of_convert_none {t : String}
    (h : convert_to_sem_ver t = .ok none) (acc : String × Option Version) :
    step acc t = .ok acc := by
  simp [step, h]

theorem step_of_convert_some_none {t : String} {w : Version}
    (h : convert_to_sem_ver t = .ok (some w)) (s : String) :
    step (s, none) t = .error .typeError := by
  simp [step, h]

theorem step_of_convert_some {t : String} {w : Version}
    (h : convert_to_sem_ver t = .ok (some w)) (s : String) (lv : Version) :
    step (s, some lv) t
      = if versionGt w lv then .ok (t, some w) else .ok (s, some lv) := by
  simp [step, h]

theorem foldlM_step_inv (P : String × Option Version → Prop) :
    ∀ (l : List String) (acc res : String × Option Version),
      (∀ a t a', t ∈ l → P a → step a t = .ok a' → P a') →
      l.foldlM step acc = .ok res → P acc → P res := by
  intro l
  induction l with
  | nil =>
    intro acc res _ hfold hP
    simp only [List.foldlM_nil, pure, Except.pure, Except.ok.injEq] at hfold
    rw [← hfold]
    exact hP
  | cons t ts ih =>
    intro acc res hpres hfold hP
    rw [List.foldlM_cons] at hfold
    cases hstep : step acc t with
    | error e =>
      rw [hstep] at hfold
      simp only [Bind.bind, Except.bind] at hfold
      exact Except.noConfusion hfold
    | ok a' =>
      rw [hstep] at hfold
      simp only [Bind.bind, Except.bind] at hfold
      exact ih a' res (fun a u a'' hu => hpres a u a'' (List.mem_cons_of_mem _ hu))
        hfold (hpres acc t a' (List.mem_cons_self _ _) hP hstep)

/-- C1: whenever the supplied current version converts to a version `cvv` and
the selector returns a tag (rather than exiting), the returned tag converts to
a version whose precedence is at least that of `cvv`: the running maximum
starts at the current version and is only ever replaced by a strictly greater
one. -/
theorem selector_result_ge_current (tags : List String) (cv : String)
    (cvv : Version) (hcv : convert_to_sem_ver cv = .ok (some cvv))
    (res : String) (hres : find_latest_tag tags (some cv) = .ok res) :
    ∃ rv, convert_to_sem_ver res = .ok (some rv) ∧
      precedence_key cvv ≤ precedence_key rv := by
  have hne : cv ≠ "" := by
    intro h
    rw [h, show convert_to_sem_ver "" = .error .indexError from rfl] at hcv
    exact Except.noConfusion hcv
  have hnorm : normalized_current (some cv) = cv := by
    simp [normalized_current, hne]
  have hbase : convert_to_sem_ver "0.0.0" = .ok (some v000) := rfl
  simp only [find_latest_tag, hnorm, hcv] at hres
  cases hfold : tags.foldlM step (cv, some cvv) with
  | error e =>
    simp only [hfold] at hres
    exact Except.noConfusion hres
  | ok acc =>
    simp only [hfold, hbase] at hres
    have hinv : ∃ v, acc.2 = some v ∧ precedence_key cvv ≤ precedence_key v ∧
        convert_to_sem_ver acc.1 = .ok (some v) := by
      refine foldlM_step_inv
        (fun a => ∃ v, a.2 = some v ∧ precedence_key cvv ≤ precedence_key v ∧
          convert_to_sem_ver a.1 = .ok (some v)) tags (cv, some cvv) acc ?_ hfold
        ⟨cvv, rfl, le_refl _, hcv⟩
      intro a t a' _ hP hstep
      obtain ⟨s, a2⟩ := a
      obtain ⟨v, ha2, hle, hconv⟩ := hP
      have ha2' : a2 = some v := ha2
      subst ha2'
      cases hct : convert_to_sem_ver t with
      | error e =>
        rw [step_of_convert_error hct] at hstep
        exact Except.noConfusion hstep
      | ok o =>
        cases o with
        | none =>
          rw [step_of_convert_none hct] at hstep
          cases hstep
          exact ⟨v, rfl, hle, hconv⟩
        | some w =>
          rw [step_of_convert_some hct s v] at hstep
          by_cases hgt : versionGt w v
          · rw [if_pos hgt] at hstep
            cases hstep
            exact ⟨w, rfl,
              le_trans hle (le_of_lt (of_decide_eq_true hgt)), hct⟩
          · rw [if_neg hgt] at hstep
            cases hstep
            exact ⟨v, rfl, hle, hconv⟩
    obtain ⟨v, ha2, hle, hconv⟩ := hinv
    rw [ha2] at hres
    simp only [optVersionEq] at hres
    by_cases he : versionEq v v000 = true
    · rw [if_pos he] at hres
      exact Except.noConfusion hres
    · rw [if_neg he] at hres
      cases hres
      exact ⟨v, hconv, hle⟩

/-- Witness for C1: current version `"1.0.0"`, tag tuple `("1.5.0")`; the
selector returns `"1.5.0"`, whose version is above `1.0.0`. -/
theorem selector_result_ge_current_witness :
    ∃ rv, convert_to_sem_ver "1.5.0" = .ok (some rv) ∧
      precedence_key ⟨1, 0, 0, [], []⟩ ≤ precedence_key rv :=
  selector_result_ge_current ["1.5.0"] "1.0.0" ⟨1, 0, 0, [], []⟩ (by rfl)
    "1.5.0" (by rfl)

/-- C5: if after scanning all tags the running maximum still equals the
`0.0.0` baseline, `_find_latest_tag` raises
`SystemExit('Latest tag not retrieved, obtained tags cannot be compared')`;
in particular it does so for the tag tuple `("foo", "bar")` with no current
version. -/
theorem baseline_unimproved_exits :
    (∀ (tags : List String) (cur : Option String) (cvv : Option Version)
       (acc : String × Option Version),
       convert_to_sem_ver (normalized_current cur) = .ok cvv →
       tags.foldlM step (normalized_current cur, cvv) = .ok acc →
       optVersionEq acc.2 (some v000) = true →
       find_latest_tag tags cur = .error (.systemExit exitMsgNoTags))
    ∧ find_latest_tag ["foo", "bar"] none = .error (.systemExit exitMsgNoTags) := by
  constructor
  · intro tags cur cvv acc hcv hfold heq
    have hbase : convert_to_sem_ver "0.0.0" = .ok (some v000) := rfl
    simp only [find_latest_tag, hcv, hfold, hbase, heq, if_true]
  · rfl

/-- Witness for the universally quantified part of C5, at the single
unparsable tag `"x"` and absent current version. -/
theorem baseline_unimproved_exits_witness :
    find_latest_tag ["x"] none = .error (.systemExit exitMsgNoTags) :=
  baseline_unimproved_exits.1 ["x"] none (some v000) ("0.0.0", some v000)
    (by rfl) (by rfl) (by rfl)

theorem foldlM_step_const (cvv : Version) (cv : String) :
    ∀ l : List String,
      (∀ t ∈ l, ∃ o, convert_to_sem_ver t = .ok o ∧
        ∀ w, o = some w → versionGt w cvv = false) →
      l.foldlM step (cv, some cvv) = .ok (cv, some cvv) := by
  intro l
  induction l with
  | nil => intro _; rfl
  | cons t ts ih =>
    intro h
    obtain ⟨o, hct, ho⟩ := h t (List.mem_cons_self _ _)
    rw [List.foldlM_cons]
    have hstep : step (cv, some cvv) t = .ok (cv, some cvv) := by
      simp only [step, hct]
      cases o with
      | none => rfl
      | some w => simp [ho w rfl]
    rw [hstep]
    simp only [Bind.bind, Except.bind]
    exact ih (fun u hu => h u (List.mem_cons_of_mem _ hu))

/-- C7: when the supplied current version parses strictly above `0.0.0` and no
candidate tag converts to something above it, `_find_latest_tag` returns the
original current-version string unchanged instead of failing; and in general
any returned string is either one of the tag strings or the original
current-version argument, in its original form (no re-normalization, a leading
`v` included). -/
theorem fallback_and_original_form :
    (∀ (tags : List String) (cv : String) (cvv : Version),
       convert_to_sem_ver cv = .ok (some cvv) →
       precedence_key v000 < precedence_key cvv →
       (∀ t ∈ tags, ∃ o, convert_to_sem_ver t = .ok o ∧
          ∀ w, o = some w → versionGt w cvv = false) →
       find_latest_tag tags (some cv) = .ok cv)
    ∧ (∀ (tags : List String) (cur : Option String) (res : String),
       find_latest_tag tags cur = .ok res → res ∈ tags ∨ cur = some res) := by
  constructor
  · intro tags cv cvv hcv hlt htags
    have hne : cv ≠ "" := by
      intro h
      rw [h, show convert_to_sem_ver "" = .error .indexError from rfl] at hcv
      exact Except.noConfusion hcv
    have hnorm : normalized_current (some cv) = cv := by
      simp [normalized_current, hne]
    have hbase : convert_to_sem_ver "0.0.0" = .ok (some v000) := rfl
    have hne000 : versionEq cvv v000 = false := by
      unfold versionEq
      rw [decide_eq_false_iff_not]
      intro h
      rw [h] at hlt
      exact lt_irrefl _ hlt
    simp only [find_latest_tag, hnorm, hcv, foldlM_step_const cvv cv tags htags,
      hbase, optVersionEq, hne000, Bool.false_eq_true, if_false]
  · intro tags cur res hres
    simp only [find_latest_tag] at hres
    cases hcv : convert_to_sem_ver (normalized_current cur) with
    | error e =>
      simp only [hcv] at hres
      exact Except.noConfusion hres
    | ok cvv0 =>
      simp only [hcv] at hres
      cases hfold : tags.foldlM step (normalized_current cur, cvv0) with
      | error e =>
        simp only [hfold] at hres
        exact Except.noConfusion hres
      | ok acc =>
        have hbase : convert_to_sem_ver "0.0.0" = .ok (some v000) := rfl
        simp only [hfold, hbase] at hres
        by_cases heq : optVersionEq acc.2 (some v000) = true
        · rw [if_pos heq] at hres
          exact Except.noConfusion hres
        · rw [if_neg heq] at hres
          cases hres
          have hinv : acc = (normalized_current cur, cvv0) ∨ acc.1 ∈ tags := by
            refine foldlM_step_inv
              (fun a => a = (normalized_current cur, cvv0) ∨ a.1 ∈ tags)
              tags _ acc ?_ hfold (Or.inl rfl)
            intro a t a' ht hP hstep
            obtain ⟨s, a2⟩ := a
            cases hct : convert_to_sem_ver t with
            | error e =>
              rw [step_of_convert_error hct] at hstep
              exact Except.noConfusion hstep
            | ok o =>
              cases o with
              | none =>
                rw [step_of_convert_none hct] at hstep
                cases hstep
                exact hP
              | some w =>
                cases a2 with
                | none =>
                  rw [step_of_convert_some_none hct s] at hstep
                  exact Except.noConfusion hstep
                | some lv =>
                  rw [step_of_convert_some hct s lv] at hstep
                  by_cases hgt : versionGt w lv
                  · rw [if_pos hgt] at hstep
                    cases hstep
                    exact Or.inr ht
                  · rw [if_neg hgt] at hstep
                    cases hstep
                    exact hP
          rcases hinv with h | h
          · cases cur with
            | none =>
              exfalso
              apply heq
              have h0 : convert_to_sem_ver (normalized_current none) = .ok (some v000) := rfl
              have h1 : cvv0 = some v000 := by
                rw [h0] at hcv
                exact (Except.ok.inj hcv).symm
              rw [h]
              show optVersionEq cvv0 (some v000) = true
              rw [h1]
              rfl
            | some s =>
              by_cases hs : s = ""
              · exfalso
                apply heq
                rw [h]
                show optVersionEq cvv0 (some v000) = true
                have h0 : convert_to_sem_ver (normalized_current (some s)) = .ok (some v000) := by
                  rw [show normalized_current (some s) = "0.0.0" by simp [normalized_current, hs]]
                  exact hbase
                have h1 : cvv0 = some v000 := by
                  rw [h0] at hcv
                  exact (Except.ok.inj hcv).symm
                rw [h1]
                rfl
              · right
                rw [h]
                show some s = some (normalized_current (some s))
                simp [normalized_current, hs]
          · exact Or.inl h

/-- Witness for C7: current version `"v2.0.0"` (parsing to `2.0.0`), tag tuple
`("1.0.0")`; the selector returns `"v2.0.0"` verbatim, leading `v` included. -/
theorem fallback_and_original_form_witness :
    find_latest_tag ["1.0.0"] (some "v2.0.0") = .ok "v2.0.0" :=
  fallback_and_original_form.1 ["1.0.0"] "v2.0.0" ⟨2, 0, 0, [], []⟩ (by rfl)
    (by decide)
    (by
      intro t ht
      have : t = "1.0.0" := by simpa using ht
      rw [this]
      exact ⟨some ⟨1, 0, 0, [], []⟩, rfl, by
        intro w hw
        cases hw
        rfl⟩)

end GetLastTag
